import Mathlib

/-!
Verification development for the gql-checker repository.

The repository checks that every top-level GraphQL query declared in a
schema directory has a matching resolver in a Kotlin source tree.  We give a
shallow embedding of its stages:

* the schema extractor (`src/schema_parser.rs`): `SchemaParser.new`,
  `extract_queries`, `extract_custom_scalars`;
* the resolver extractor (`src/main.rs`, `get_resolver_names`);
* the Kotlin class/field metadata extractor
  (`src/kotlin_parser/kotlin_parser.rs`): `KotlinParser.new`;
* the coverage matcher (the loop in `main`, `src/main.rs` lines 57-63):
  `computeMismatches`, and the whole pipeline of `main`: `runPipeline`.

External effects (walkdir traversal, `fs::read_to_string`, the graphql and
tree-sitter parsers, the two regexes of `get_resolver_names`) are modelled by
recording their results as fields of the input: an entry carries the outcome
of reading it, the parsed document, the capture results of the regexes on a
function's text, or the ordered capture stream the tree-sitter query produced
for a file.  The control flow that consumes those results is translated
statement by statement from the Rust source.  A Rust panic (`unwrap` on
`Err`/`None`, an out-of-bounds index) is modelled as an `Except.error`
outcome so that "the run aborts" is expressible.
-/

namespace GqlChecker

/-! ## GraphQL schema model (the part of the `graphql_parser` crate that
`src/schema_parser.rs` consumes) -/

/-- `graphql_parser::schema::Type`: a named type, a list type, or a non-null
wrapper.  Its `Display` rendering (what `to_string()` produces in
`extract_queries`) is given by `renderType`. -/
inductive GqlType where
  | namedType (name : String)
  | listType (t : GqlType)
  | nonNullType (t : GqlType)
deriving DecidableEq, Repr

/-- The `Display` rendering of a `graphql_parser` type, as a character list:
a named type prints its name, `[T]` wraps the element rendering in brackets,
`T!` appends the non-null marker. -/
def renderType : GqlType → List Char
  | .namedType name => name.toList
  | .listType t => '[' :: (renderType t ++ [']'])
  | .nonNullType t => renderType t ++ ['!']

/-- `graphql_parser::schema::InputValue`, restricted to the two fields
`extract_queries` reads: the argument name and its declared type. -/
structure InputValue where
  name : String
  value_type : GqlType
deriving DecidableEq, Repr

/-- A field of an object type: its name and its argument list, the two parts
`extract_queries` reads. -/
structure FieldDef where
  name : String
  arguments : List InputValue
deriving DecidableEq, Repr

/-- `graphql_parser::schema::TypeDefinition`, with the two variants
`schema_parser.rs` distinguishes (`Scalar`, `Object`) kept and every other
variant collapsed into one catch-all. -/
inductive TypeDef where
  | scalar (name : String)
  | object (name : String) (fields : List FieldDef)
  | otherTypeDef
deriving DecidableEq, Repr

/-- `graphql_parser::schema::Definition`: a type definition or anything else
(schema definitions, directives, ...), which `schema_parser.rs` ignores. -/
inductive GqlDefinition where
  | typeDefinition (td : TypeDef)
  | otherDefinition
deriving DecidableEq, Repr

/-- `graphql_parser::schema::Document`: the list of definitions of one parsed
schema file. -/
structure Document where
  definitions : List GqlDefinition
deriving DecidableEq, Repr

/-! ## Schema extractor (src/schema_parser.rs) -/

/-- `const QUERY_NAME: &str = "Query"` (src/schema_parser.rs line 23). -/
def QUERY_NAME : String := "Query"

/-- `Argument` from src/schema_parser.rs: name, rendered base type, and
nullability. -/
structure Argument where
  name : String
  value_type : String
  is_nullable : Bool
deriving DecidableEq, Repr

/-- `Query` from src/schema_parser.rs (named `SchemaQuery` here to avoid a
clash with the Kotlin tree-sitter query): a query name with its arguments. -/
structure SchemaQuery where
  name : String
  arguments : List Argument
deriving DecidableEq, Repr

/-- The argument construction inside `extract_queries`
(src/schema_parser.rs lines 160-168): `is_nullable` is
`!value_type.to_string().contains('!')` and `value_type` is
`value_type.to_string().replace('!', "")` (removing every `!` character). -/
def mkArgument (name : String) (t : GqlType) : Argument :=
  let rendered := renderType t
  { name := name
    value_type := (rendered.filter fun c => c != '!').asString
    is_nullable := !(rendered.contains '!') }

/-- `SchemaParser::extract_custom_scalars` (src/schema_parser.rs lines
125-137): the names of all scalar type definitions of a document. -/
def extract_custom_scalars (schema : Document) : List String :=
  schema.definitions.filterMap fun d =>
    match d with
    | .typeDefinition (.scalar name) => some name
    | _ => none

/-- `SchemaParser::extract_queries` (src/schema_parser.rs lines 139-178):
for every object definition named `Query`, one `SchemaQuery` per field in
declaration order, with one `Argument` per field argument. -/
def extract_queries (schema : Document) : List SchemaQuery :=
  (schema.definitions.filterMap fun d =>
    match d with
    | .typeDefinition (.object name fields) =>
        if name != QUERY_NAME then none else some fields
    | _ => none).flatMap fun fields =>
    fields.map fun field =>
      { name := field.name
        arguments := field.arguments.map fun arg =>
          mkArgument arg.name arg.value_type }

/-- `SchemaParserError` from src/schema_parser.rs lines 10-20. -/
inductive SchemaParserError where
  | fileReadError (msg : String)
  | parseError (msg : String)
  | noSchemaFiles (path : String)
  | invalidSchemaDir (msg : String)
deriving DecidableEq, Repr

deriving instance DecidableEq for Except

/-- One walkdir entry of the schema directory that yielded `Ok`, carrying the
data `SchemaParser::new` inspects: whether the path is a file, the path text
(for the `.graphqls` suffix check), the result of `fs::read_to_string`, and
the result of `parse_schema` on that content. -/
structure SchemaDirEntry where
  isFile : Bool
  path : String
  readRes : Except String String
  parseRes : Except String Document
deriving DecidableEq, Repr

/-- The schema directory as `SchemaParser::new` observes it: whether the path
exists, whether it is a directory, its display text, and the walkdir
entries. -/
structure SchemaDir where
  dirExists : Bool
  isDir : Bool
  path : String
  entries : List SchemaDirEntry
deriving DecidableEq, Repr

/-- Suffix test on character lists (Rust `str::ends_with`). -/
def strEndsWith (s pat : String) : Bool :=
  pat.toList.isSuffixOf s.toList

/-- The per-entry guard of the walk loop in `SchemaParser::new`
(src/schema_parser.rs line 80): only file entries whose path ends in
`.graphqls` are processed. -/
def isSchemaFile (e : SchemaDirEntry) : Bool :=
  e.isFile && strEndsWith e.path ".graphqls"

/-- Whether an `Except` value is `ok`. -/
def isOkE {ε α : Type} : Except ε α → Bool
  | .ok _ => true
  | .error _ => false

/-- Whether an `Except` value is `error`. -/
def isErrE {ε α : Type} : Except ε α → Bool
  | .ok _ => false
  | .error _ => true

/-- The walk loop of `SchemaParser::new` (src/schema_parser.rs lines 79-93):
skip non-schema entries; otherwise the read result and then the parse result
are unwrapped with `?`-style propagation (fail-fast), and the custom scalars
and queries of the parsed document are appended to the accumulators; the
final boolean records that at least one schema file was seen. -/
def newLoop : List SchemaDirEntry → List String → List SchemaQuery → Bool →
    Except SchemaParserError (List String × List SchemaQuery × Bool)
  | [], custom_scalars, schema_queries, found =>
      .ok (custom_scalars, schema_queries, found)
  | e :: rest, custom_scalars, schema_queries, found =>
      if !(isSchemaFile e) then
        newLoop rest custom_scalars schema_queries found
      else
        match e.readRes with
        | .error msg => .error (.fileReadError msg)
        | .ok _content =>
          match e.parseRes with
          | .error msg => .error (.parseError msg)
          | .ok schema =>
            newLoop rest (custom_scalars ++ extract_custom_scalars schema)
              (schema_queries ++ extract_queries schema) true

/-- `SchemaParser` from src/schema_parser.rs lines 27-30. -/
structure SchemaParser where
  queries : List SchemaQuery
  custom_scalars : List String
deriving DecidableEq, Repr

/-- `SchemaParser::new` (src/schema_parser.rs lines 60-113): validate the
directory, walk it accumulating scalars and queries, fail with
`NoSchemaFiles` when nothing matched, and finally drop every argument whose
`value_type` is a collected custom scalar. -/
def SchemaParser.new (dir : SchemaDir) : Except SchemaParserError SchemaParser :=
  if !dir.dirExists then
    .error (.invalidSchemaDir "Schema directory does not exist")
  else if !dir.isDir then
    .error (.invalidSchemaDir "Schema path is not a directory")
  else
    match newLoop dir.entries [] [] false with
    | .error e => .error e
    | .ok (custom_scalars, schema_queries, found_schema_files) =>
      if !found_schema_files then
        .error (.noSchemaFiles dir.path)
      else
        .ok { queries := schema_queries.map fun q =>
                { q with arguments := q.arguments.filter fun arg =>
                    !(custom_scalars.contains arg.value_type) }
              custom_scalars := custom_scalars }

/-- `SchemaParser::get_query_names` (src/schema_parser.rs lines 116-118). -/
def get_query_names (p : SchemaParser) : List String :=
  p.queries.map fun q => q.name

/-! ## Resolver extractor (src/main.rs, `get_resolver_names`) -/

/-- One `function_declaration` capture of the tree-sitter query in
`get_resolver_names`, reduced to the data the loop body reads: the capture
groups of `schema_mapping_regex` on the function's text (the `typeName` and
`field` values of a `SchemaMapping` marker, when the pattern matches) and the
capture of `method_name_regex` (the function's own name, when that pattern
matches). -/
structure FunctionDecl where
  schemaMappingCapture : Option (String × String)
  methodNameCapture : Option String
deriving DecidableEq, Repr

/-- One walkdir entry of the source directory that yielded `Ok`: the path
extension, the `fs::read_to_string` result (`unwrap`ped at src/main.rs line
120), whether `parser.parse` returned `Some` (`unwrap`ped at line 122), and
the function declarations captured in the parsed tree, in match order. -/
structure SourceEntry where
  extension : Option String
  readRes : Except String String
  parseSome : Bool
  functions : List FunctionDecl
deriving DecidableEq, Repr

/-- The extension filter of `get_resolver_names` (src/main.rs line 117):
`e.path().extension().map_or(false, |ext| ext == "kt")`. -/
def entryIsKt (e : SourceEntry) : Bool :=
  match e.extension with
  | none => false
  | some ext => ext == "kt"

/-- The two ways the `get_resolver_names` loop can panic and abort the run:
`read_to_string(..).unwrap()` on an `Err`, and `parser.parse(..).unwrap()` on
`None`. -/
inductive SourcePanic where
  | readPanic (msg : String)
  | parsePanic
deriving DecidableEq, Repr

/-- The per-function body of `get_resolver_names` (src/main.rs lines
135-153): when the `SchemaMapping` pattern matched, skip non-`Query` root
types; then, only when the method-name pattern also matched (its capture is
bound to the unused `_method_name`), push the field name unless it is already
present. -/
def processFunction (existing_resolvers : List String) (f : FunctionDecl) :
    List String :=
  match f.schemaMappingCapture with
  | none => existing_resolvers
  | some (type_name, field_name) =>
    if type_name != "Query" then existing_resolvers
    else
      match f.methodNameCapture with
      | none => existing_resolvers
      | some _method_name =>
        if existing_resolvers.contains field_name then existing_resolvers
        else existing_resolvers ++ [field_name]

/-- The file loop of `get_resolver_names` (src/main.rs lines 114-157): skip
non-`.kt` entries, panic on a failed read or parse, and fold the function
captures of each file into the accumulated resolver list. -/
def resolverLoop : List SourceEntry → List String →
    Except SourcePanic (List String)
  | [], existing_resolvers => .ok existing_resolvers
  | e :: rest, existing_resolvers =>
    if !(entryIsKt e) then resolverLoop rest existing_resolvers
    else
      match e.readRes with
      | .error msg => .error (.readPanic msg)
      | .ok _content =>
        if !e.parseSome then .error .parsePanic
        else resolverLoop rest (e.functions.foldl processFunction existing_resolvers)

/-- `get_resolver_names` (src/main.rs lines 94-160): the resolver field
names, starting from an empty list. -/
def get_resolver_names (entries : List SourceEntry) :
    Except SourcePanic (List String) :=
  resolverLoop entries []

/-- Replace the value captured by the method-name pattern (when it matched)
by the empty string, keeping whether it matched.  Used to state that the
captured name's value is never consulted. -/
def normalizeMethodCapture (f : FunctionDecl) : FunctionDecl :=
  { f with methodNameCapture := f.methodNameCapture.map fun _ => "" }

/-- `normalizeMethodCapture` applied to every function of an entry. -/
def normalizeEntry (e : SourceEntry) : SourceEntry :=
  { e with functions := e.functions.map normalizeMethodCapture }

/-! ## Coverage matcher and pipeline (src/main.rs, `main`) -/

/-- `enum MismatchType` from src/main.rs lines 27-29: the single kind of
finding, `MissingQueryResolver(String)` carrying the query name. -/
inductive MismatchType where
  | missingQueryResolver (queryName : String)
deriving DecidableEq, Repr

/-- The query name carried by a mismatch record. -/
def MismatchType.queryName : MismatchType → String
  | .missingQueryResolver n => n

/-- The matcher loop of `main` (src/main.rs lines 57-63): for each query name
in order, push a `MissingQueryResolver` record iff the resolver list does not
contain it. -/
def computeMismatches (queryNames : List String) (resolvers : List String) :
    List MismatchType :=
  queryNames.foldl
    (fun acc queryName =>
      if !(resolvers.contains queryName) then
        acc ++ [MismatchType.missingQueryResolver queryName]
      else acc)
    []

/-- A fatal outcome of the pipeline: a schema extraction error propagated
with `?` at src/main.rs line 48, or a panic inside `get_resolver_names`. -/
inductive RunError where
  | schemaError (e : SchemaParserError)
  | sourcePanic (p : SourcePanic)
deriving DecidableEq, Repr

/-- The pipeline of `main` (src/main.rs lines 48-63): build the schema
model, extract the resolver names, and only then compute the mismatch list.
A fatal error in either extraction stage aborts before matching. -/
def runPipeline (dir : SchemaDir) (src : List SourceEntry) :
    Except RunError (List MismatchType) :=
  match SchemaParser.new dir with
  | .error e => .error (.schemaError e)
  | .ok sp =>
    match get_resolver_names src with
    | .error p => .error (.sourcePanic p)
    | .ok resolvers => .ok (computeMismatches (get_query_names sp) resolvers)

/-! ## Kotlin metadata extractor (src/kotlin_parser/kotlin_parser.rs)

String helpers first: structural-recursion embeddings of the Rust string
operations used there (`split`, `trim_start_matches`, `trim`).  The
fuel-indexed recursions use the input length as fuel; every recursive step
consumes at least one character, so the fuel never runs out on the way to the
result. -/

/-- First occurrence of `sep` in `s`: the part before it and the part after
it, or `none` when `sep` (assumed nonempty) does not occur. -/
def splitFirst (sep : List Char) : List Char → Option (List Char × List Char)
  | [] => none
  | c :: rest =>
    if sep.isPrefixOf (c :: rest) then some ([], (c :: rest).drop sep.length)
    else
      match splitFirst sep rest with
      | none => none
      | some (pre, post) => some (c :: pre, post)

/-- Fuel-indexed splitting on a separator: cut at each occurrence of `sep`
from the left. -/
def splitOnSepFuel (sep : List Char) : Nat → List Char → List (List Char)
  | 0, s => [s]
  | fuel + 1, s =>
    match splitFirst sep s with
    | none => [s]
    | some (pre, post) => pre :: splitOnSepFuel sep fuel post

/-- Rust `str::split` collected into a vector, for a nonempty separator
pattern: the pieces of `s` between occurrences of `sep`. -/
def rustSplit (sep : String) (s : String) : List String :=
  (splitOnSepFuel sep.toList s.length s.toList).map List.asString

/-- Fuel-indexed embedding of Rust `str::trim_start_matches`: repeatedly
remove a leading occurrence of `pat` while one is present. -/
def stripMatchesFuel (pat : List Char) : Nat → List Char → List Char
  | 0, s => s
  | fuel + 1, s =>
    if pat.isEmpty then s
    else if pat.isPrefixOf s then stripMatchesFuel pat fuel (s.drop pat.length)
    else s

/-- Rust `str::trim` on a character list: drop whitespace at both ends. -/
def trimChars (s : List Char) : List Char :=
  ((s.dropWhile Char.isWhitespace).reverse.dropWhile Char.isWhitespace).reverse

/-- The field-name computation of `KotlinParser::new`
(src/kotlin_parser/kotlin_parser.rs lines 96-99):
`type_parts[0].trim_start_matches("val ").trim_start_matches("var ").trim()`. -/
def fieldNameOfCapture (part0 : String) : String :=
  (trimChars (stripMatchesFuel "var ".toList part0.length
    (stripMatchesFuel "val ".toList part0.length part0.toList))).asString

/-- One capture produced by the tree-sitter query of
`src/kotlin_parser/queries.rs` on a file, tagged with its capture name:
`package_name`, `class_name`, `field_type`, or anything else. -/
inductive KtCapture where
  | packageName (text : String)
  | className (text : String)
  | fieldType (text : String)
  | otherCapture (text : String)
deriving DecidableEq, Repr

/-- `Field` from src/kotlin_parser/kotlin_parser.rs lines 31-35 (named
`KtField` here; `Field` is also the name of a schema-side notion). -/
structure KtField where
  field_type : String
  field_name : String
deriving DecidableEq, Repr

/-- `Class` from src/kotlin_parser/kotlin_parser.rs lines 25-29. -/
structure KtClass where
  fields : List KtField
  name : String
deriving DecidableEq, Repr

/-- The `HashMap<ClassName, Class>` of `KotlinParser::new`, as an association
list; only `contains_key`, `insert` (of a fresh key) and `get_mut` are used
by the source. -/
abbrev ClassMap := List (String × KtClass)

/-- `HashMap::contains_key`. -/
def mapContainsKey (m : ClassMap) (k : String) : Bool :=
  m.any fun kv => kv.1 == k

/-- `HashMap::insert` of a key not yet present. -/
def mapInsert (m : ClassMap) (k : String) (c : KtClass) : ClassMap :=
  m ++ [(k, c)]

/-- `get_mut` followed by `fields.push`: append a field to the class stored
under `k`, when present. -/
def mapPushField (m : ClassMap) (k : String) (f : KtField) : ClassMap :=
  m.map fun kv =>
    if kv.1 == k then (kv.1, { kv.2 with fields := kv.2.fields ++ [f] })
    else kv

/-- `File` from src/kotlin_parser/kotlin_parser.rs lines 21-23 (named
`KtFile` here). -/
structure KtFile where
  package : String
deriving DecidableEq, Repr

/-- The one way `KotlinParser::new` can panic inside capture processing: the
`type_parts[1]` index at src/kotlin_parser/kotlin_parser.rs line 100, out of
bounds when the captured text does not contain the separator. -/
inductive KotlinPanic where
  | fieldIndexPanic
deriving DecidableEq, Repr

/-- The capture-dispatch body of `KotlinParser::new`
(src/kotlin_parser/kotlin_parser.rs lines 73-117), acting on the state
`(file, current_class_name, class_map)`:

* `package_name` overwrites the file's package;
* `class_name` builds `package + "." + simple name`; a qualified name already
  in the map is skipped with `continue` — note this leaves
  `current_class_name` unchanged; otherwise the class is registered and
  becomes current;
* `field_type` splits the captured text on `": "`, derives the field name
  from part 0, reads part 1 (a panic when the split has a single part), and
  appends the field to the current class when one is set;
* any other capture name is only printed. -/
def processCapture (st : KtFile × Option String × ClassMap) (c : KtCapture) :
    Except KotlinPanic (KtFile × Option String × ClassMap) :=
  match st, c with
  | (_file, cur, cm), .packageName text => .ok ({ package := text }, cur, cm)
  | (file, cur, cm), .className text =>
      let class_name := file.package ++ "." ++ text
      if mapContainsKey cm class_name then .ok (file, cur, cm)
      else .ok (file, some class_name,
        mapInsert cm class_name { fields := [], name := class_name })
  | (file, cur, cm), .fieldType text =>
      let type_parts := rustSplit ": " text
      let field_name := fieldNameOfCapture (type_parts.headD "")
      match type_parts[1]? with
      | none => .error .fieldIndexPanic
      | some field_type =>
        match cur with
        | none => .ok (file, cur, cm)
        | some class_name =>
          .ok (file, cur, mapPushField cm class_name
            { field_type := field_type, field_name := field_name })
  | (file, cur, cm), .otherCapture _ => .ok (file, cur, cm)

/-- Process the capture stream of one file, threading the state. -/
def runCaptures : (KtFile × Option String × ClassMap) → List KtCapture →
    Except KotlinPanic (KtFile × Option String × ClassMap)
  | st, [] => .ok st
  | st, c :: rest =>
    match processCapture st c with
    | .error e => .error e
    | .ok st2 => runCaptures st2 rest

/-- `KotlinParser` from src/kotlin_parser/kotlin_parser.rs lines 16-19. -/
structure KotlinParser where
  files : List KtFile
  class_map : ClassMap
deriving DecidableEq, Repr

/-- The file loop of `KotlinParser::new`
(src/kotlin_parser/kotlin_parser.rs lines 46-121): each parsed `.kt` file
starts with an empty package and no current class, its captures are
processed against the shared class map, and the resulting file metadata is
appended. -/
def kotlinNewLoop : List (List KtCapture) → List KtFile → ClassMap →
    Except KotlinPanic KotlinParser
  | [], files, class_map => .ok { files := files, class_map := class_map }
  | captures :: rest, files, class_map =>
    match runCaptures ({ package := "" }, none, class_map) captures with
    | .error e => .error e
    | .ok st => kotlinNewLoop rest (files ++ [st.1]) st.2.2

/-- `KotlinParser::new` (src/kotlin_parser/kotlin_parser.rs lines 38-124),
with the walkdir traversal, reads and tree-sitter parsing abstracted: the
input is the ordered capture stream of each successfully read and parsed
`.kt` file. -/
def KotlinParser.new (srcFiles : List (List KtCapture)) :
    Except KotlinPanic KotlinParser :=
  kotlinNewLoop srcFiles [] []

/-- A capture is in-bounds for the field-extraction step when it is not a
`field_type` capture, or its text splits on `": "` into at least two
parts. -/
def fieldCaptureOk : KtCapture → Bool
  | .fieldType text => decide (2 ≤ (rustSplit ": " text).length)
  | _ => true

/-! ## Spec-side definitions for the argument-nullability claim -/

/-- Whether a declared type carries a trailing non-null marker, i.e. is a
`NonNullType` at the top level. -/
def hasTrailingNonNull : GqlType → Bool
  | .nonNullType _ => true
  | _ => false

/-- Whether a declared type contains a non-null marker anywhere (at the top
level or on a nested element type). -/
def containsNonNull : GqlType → Bool
  | .namedType _ => false
  | .listType t => containsNonNull t
  | .nonNullType _ => true

/-- The declared type with every non-null marker removed. -/
def stripNonNull : GqlType → GqlType
  | .namedType n => .namedType n
  | .listType t => .listType (stripNonNull t)
  | .nonNullType t => stripNonNull t

/-- Whether no named type inside `t` has a `!` in its name (true of every
GraphQL type, where names are alphanumeric). -/
def cleanTypeName : GqlType → Bool
  | .namedType n => !(n.toList.contains '!')
  | .listType t => cleanTypeName t
  | .nonNullType t => cleanTypeName t

/-- Modelled from the spec, as amended: the argument record it describes,
with `is_nullable` determined by the presence of a non-null marker anywhere
in the declared type, and `value_type` the declared type rendered with all
non-null markers removed. -/
def mkArgumentSpec (name : String) (t : GqlType) : Argument :=
  { name := name
    value_type := (renderType (stripNonNull t)).asString
    is_nullable := !(containsNonNull t) }

/-- Modelled from the spec, as amended: `extract_queries` with each argument
built by `mkArgumentSpec`. -/
def extract_queriesSpec (schema : Document) : List SchemaQuery :=
  (schema.definitions.filterMap fun d =>
    match d with
    | .typeDefinition (.object name fields) =>
        if name != QUERY_NAME then none else some fields
    | _ => none).flatMap fun fields =>
    fields.map fun field =>
      { name := field.name
        arguments := field.arguments.map fun arg =>
          mkArgumentSpec arg.name arg.value_type }

/-- Every argument type of every `Query` object in the document has clean
named-type names (no `!` characters inside names). -/
def wellFormedDoc (schema : Document) : Bool :=
  schema.definitions.all fun d =>
    match d with
    | .typeDefinition (.object _ fields) =>
        fields.all fun field =>
          field.arguments.all fun arg => cleanTypeName arg.value_type
    | _ => true

/-! ## Concrete inputs used by witnesses and counterexamples -/

/-- A schema document declaring `type Query` with one field
`employee(id: ID!, at: Date)`. -/
def exQueryDoc : Document :=
  { definitions :=
      [ .typeDefinition (.object "Query"
          [ { name := "employee"
              arguments :=
                [ { name := "id", value_type := .nonNullType (.namedType "ID") }
                , { name := "at", value_type := .namedType "Date" } ] } ]) ] }

/-- A schema document declaring `scalar Date`. -/
def exScalarDoc : Document :=
  { definitions := [ .typeDefinition (.scalar "Date") ] }

/-- A schema directory with the two documents above in two files; the scalar
declared in the second file filters an argument of the first. -/
def exSchemaDir : SchemaDir :=
  { dirExists := true
    isDir := true
    path := "app/src/main/resources/graphql"
    entries :=
      [ { isFile := true, path := "graphql/schema.graphqls"
          readRes := .ok "type Query", parseRes := .ok exQueryDoc }
      , { isFile := true, path := "graphql/scalars.graphqls"
          readRes := .ok "scalar Date", parseRes := .ok exScalarDoc } ] }

/-- The argument surviving the custom-scalar filter on `exSchemaDir`. -/
def exArgumentId : Argument :=
  { name := "id", value_type := "ID", is_nullable := false }

/-- The schema model `SchemaParser::new` produces on `exSchemaDir`. -/
def exSchemaOut : SchemaParser :=
  { queries := [ { name := "employee", arguments := [exArgumentId] } ]
    custom_scalars := ["Date"] }

/-- A schema directory whose only schema file fails to parse. -/
def exBadParseDir : SchemaDir :=
  { dirExists := true
    isDir := true
    path := "app/graphql"
    entries :=
      [ { isFile := true, path := "broken.graphqls"
          readRes := .ok "type Query"
          parseRes := .error "schema parse error: unexpected end of input" } ] }

/-- A schema path that exists but is not a directory. -/
def exFileNotDir : SchemaDir :=
  { dirExists := true, isDir := false, path := "app/schema.txt", entries := [] }

/-- A schema directory containing no `.graphqls` file. -/
def exEmptyDir : SchemaDir :=
  { dirExists := true
    isDir := true
    path := "app/empty"
    entries :=
      [ { isFile := true, path := "app/empty/readme.md"
          readRes := .ok "hello", parseRes := .error "not graphql" } ] }

/-- A resolver function bound to `Query.employee`. -/
def fnEmployee : FunctionDecl :=
  { schemaMappingCapture := some ("Query", "employee")
    methodNameCapture := some "employee" }

/-- A resolver function bound to `Mutation.addEmployee`. -/
def fnMutation : FunctionDecl :=
  { schemaMappingCapture := some ("Mutation", "addEmployee")
    methodNameCapture := some "addEmployee" }

/-- A second resolver function bound to the already-taken `Query.employee`. -/
def fnEmployeeDup : FunctionDecl :=
  { schemaMappingCapture := some ("Query", "employee")
    methodNameCapture := some "employeeResolver" }

/-- A resolver function bound to `Query.searchEmployee`. -/
def fnSearch : FunctionDecl :=
  { schemaMappingCapture := some ("Query", "searchEmployee")
    methodNameCapture := some "searchEmployee" }

/-- A plain function with no `SchemaMapping` marker. -/
def fnPlain : FunctionDecl :=
  { schemaMappingCapture := none, methodNameCapture := some "helper" }

/-- A source tree whose one file declares the five functions above. -/
def exSourceEntries : List SourceEntry :=
  [ { extension := some "kt"
      readRes := .ok "class EmployeeController"
      parseSome := true
      functions := [fnEmployee, fnMutation, fnEmployeeDup, fnSearch, fnPlain] } ]

/-- A `Query.employee` resolver whose function text fails the method-name
pattern: a generic declaration such as one beginning with the three tokens
fun, angle-bracketed T, and the name — the pattern requires a word right
after the fun keyword and does not match. -/
def fnGenericNoName : FunctionDecl :=
  { schemaMappingCapture := some ("Query", "employee")
    methodNameCapture := none }

/-- The same binding on a function whose text does match the method-name
pattern. -/
def fnNamed : FunctionDecl :=
  { schemaMappingCapture := some ("Query", "employee")
    methodNameCapture := some "getEmployee" }

/-- A source tree with only the generic (unmatched-name) resolver. -/
def exGenericEntry : List SourceEntry :=
  [ { extension := some "kt"
      readRes := .ok "generic employee resolver"
      parseSome := true
      functions := [fnGenericNoName] } ]

/-- A source tree with only the named resolver. -/
def exNamedEntry : List SourceEntry :=
  [ { extension := some "kt"
      readRes := .ok "named employee resolver"
      parseSome := true
      functions := [fnNamed] } ]

/-- A source tree whose one `.kt` file cannot be read. -/
def exUnreadableEntries : List SourceEntry :=
  [ { extension := some "kt"
      readRes := .error "Permission denied"
      parseSome := true
      functions := [] } ]

/-- The declared type of the counterexample argument: a nullable list of
non-null strings, written in GraphQL with brackets around the marked element
type.  Its rendering contains a non-null marker but the type carries no
trailing marker. -/
def exListArgType : GqlType := .listType (.nonNullType (.namedType "String"))

/-- A schema document whose `Query` object has one field with one argument
of type `exListArgType`. -/
def exListArgDoc : Document :=
  { definitions :=
      [ .typeDefinition (.object "Query"
          [ { name := "searchEmployee"
              arguments :=
                [ { name := "names", value_type := exListArgType } ] } ]) ] }

/-- The capture stream of a Kotlin file declaring a package and the same
class name twice, each declaration with one constructor parameter. -/
def dupClassCaptures : List KtCapture :=
  [ .packageName "com.example"
  , .className "A"
  , .fieldType "val x: Int"
  , .className "A"
  , .fieldType "val y: String" ]

/-- The capture stream of a Kotlin file whose constructor parameter is
written without a space after the colon. -/
def noSpaceParamCaptures : List KtCapture :=
  [ .packageName "com.example"
  , .className "B"
  , .fieldType "val x:Int" ]

/-- The capture stream of a well-spaced Kotlin file. -/
def spacedParamCaptures : List KtCapture :=
  [ .packageName "com.example"
  , .className "C"
  , .fieldType "val total: Int" ]

/-! ## Theorems: coverage matcher -/

/-- The push-accumulating fold of the matcher is a filter followed by a map. -/
theorem foldl_push_eq_filter_map (p : String → Bool)
    (f : String → MismatchType) :
    ∀ (qs : List String) (init : List MismatchType),
      qs.foldl (fun acc q => if p q then acc ++ [f q] else acc) init
        = init ++ (qs.filter p).map f := by
  intro qs
  induction qs with
  | nil => intro init; simp
  | cons q rest ih =>
    intro init
    by_cases h : p q <;> simp [List.foldl_cons, h, ih]

/-- Closed form of the matcher: the names of `queryNames` missing from
`resolvers`, kept in order and wrapped as records. -/
theorem computeMismatches_eq_filter (queryNames resolvers : List String) :
    computeMismatches queryNames resolvers
      = (queryNames.filter fun q => !(resolvers.contains q)).map
          MismatchType.missingQueryResolver := by
  unfold computeMismatches
  rw [foldl_push_eq_filter_map]
  simp

/-- Multiplicity of a name in a boolean filter of a list. -/
theorem count_filter_bool (p : String → Bool) (n : String) :
    ∀ qs : List String,
      (qs.filter p).count n = if p n then qs.count n else 0 := by
  intro qs
  induction qs with
  | nil => simp
  | cons q rest ih =>
    by_cases hp : p q
    · by_cases hq : q = n
      · subst hq
        simp [List.filter_cons, hp, List.count_cons, ih]
      · simp [List.filter_cons, hp, List.count_cons, ih, hq]
    · by_cases hq : q = n
      · subst hq
        simp [List.filter_cons, hp, List.count_cons, ih]
      · simp [List.filter_cons, hp, List.count_cons, ih, hq]

/-- C1: the matcher reports a record for a query name iff the name occurs in
the schema query list and is absent from the resolver list; the reported
names form a sublist of the query list (schema declaration order preserved);
and the number of records carrying a name equals that name's multiplicity in
the query list when it has no resolver and is zero when it has one — in
particular a resolver name that does not occur in the query list never
produces a record. -/
theorem matcher_reports_iff_missing (queryNames resolvers : List String)
    (n : String) :
    (MismatchType.missingQueryResolver n ∈ computeMismatches queryNames resolvers
      ↔ (n ∈ queryNames ∧ n ∉ resolvers)) ∧
    ((computeMismatches queryNames resolvers).map MismatchType.queryName).Sublist
      queryNames ∧
    ((computeMismatches queryNames resolvers).map MismatchType.queryName).count n
      = (if resolvers.contains n then 0 else queryNames.count n) := by
  refine ⟨?_, ?_, ?_⟩
  · rw [computeMismatches_eq_filter]
    constructor
    · intro h
      obtain ⟨m, hm, hmk⟩ := List.mem_map.mp h
      cases hmk
      have := List.mem_filter.mp hm
      refine ⟨this.1, ?_⟩
      intro hmem
      have hc : resolvers.contains n = true := List.elem_iff.mpr hmem
      rw [hc] at this
      simp at this
    · rintro ⟨hq, hr⟩
      refine List.mem_map.mpr ⟨n, List.mem_filter.mpr ⟨hq, ?_⟩, rfl⟩
      simpa using hr
  · rw [computeMismatches_eq_filter, List.map_map]
    have hid : (MismatchType.queryName ∘ MismatchType.missingQueryResolver)
        = id := by
      funext x; rfl
    rw [hid, List.map_id]
    exact List.filter_sublist queryNames
  · rw [computeMismatches_eq_filter, List.map_map]
    have hid : (MismatchType.queryName ∘ MismatchType.missingQueryResolver)
        = id := by
      funext x; rfl
    rw [hid, List.map_id]
    rw [count_filter_bool]
    cases hc : resolvers.contains n <;> simp

/-! ## Theorems: schema extractor -/

/-- C2: whenever `SchemaParser::new` accepts a corpus, no argument surviving
in any returned query has a `value_type` in the returned custom-scalar set
(the set collected across all files). -/
theorem new_filters_custom_scalar_arguments (dir : SchemaDir)
    (p : SchemaParser) (h : SchemaParser.new dir = Except.ok p)
    (q : SchemaQuery) (hq : q ∈ p.queries) (a : Argument)
    (ha : a ∈ q.arguments) :
    p.custom_scalars.contains a.value_type = false := by
  unfold SchemaParser.new at h
  split at h
  · cases h
  · split at h
    · cases h
    · split at h
      · cases h
      · rename_i custom_scalars schema_queries found heq
        split at h
        · cases h
        · injection h with h
          subst h
          simp only at hq ha ⊢
          obtain ⟨q0, hq0, hq0eq⟩ := List.mem_map.mp hq
          subst hq0eq
          simp only at ha
          have := List.mem_filter.mp ha
          have hpred := this.2
          simp only [Bool.not_eq_true'] at hpred
          exact hpred

/-- C2 witness: on the concrete two-file corpus `exSchemaDir`, the surviving
argument's type is not in the custom-scalar set. -/
theorem new_filters_custom_scalar_arguments_witness :
    exSchemaOut.custom_scalars.contains exArgumentId.value_type = false :=
  new_filters_custom_scalar_arguments exSchemaDir exSchemaOut rfl
    { name := "employee", arguments := [exArgumentId] } (by decide)
    exArgumentId (by decide)

/-- Skipping every entry leaves the walk-loop accumulators unchanged. -/
theorem newLoop_skip_all (entries : List SchemaDirEntry)
    (cs : List String) (qs : List SchemaQuery) (found : Bool)
    (h : ∀ e ∈ entries, isSchemaFile e = false) :
    newLoop entries cs qs found = .ok (cs, qs, found) := by
  induction entries with
  | nil => rfl
  | cons e rest ih =>
    have he : isSchemaFile e = false := h e (List.mem_cons_self e rest)
    simp only [newLoop, he, Bool.not_false, if_pos]
    exact ih fun e2 he2 => h e2 (List.mem_cons_of_mem e he2)

/-- C6: a missing or non-directory schema path fails with
`InvalidSchemaDir`, and a directory with no `.graphqls` file fails with
`NoSchemaFiles`; in both cases no `SchemaQuery` is produced. -/
theorem new_config_errors (dir : SchemaDir) :
    ((dir.dirExists = false ∨ dir.isDir = false) →
      ∃ m, SchemaParser.new dir = .error (.invalidSchemaDir m)) ∧
    (dir.dirExists = true → dir.isDir = true →
      (∀ e ∈ dir.entries, isSchemaFile e = false) →
      SchemaParser.new dir = .error (.noSchemaFiles dir.path)) := by
  constructor
  · intro h
    unfold SchemaParser.new
    rcases h with h | h
    · rw [h]
      exact ⟨"Schema directory does not exist", rfl⟩
    · rw [h]
      cases hde : dir.dirExists
      · exact ⟨"Schema directory does not exist", rfl⟩
      · exact ⟨"Schema path is not a directory", rfl⟩
  · intro h1 h2 h3
    unfold SchemaParser.new
    rw [h1, h2, newLoop_skip_all dir.entries [] [] false h3]
    rfl

/-- C6 witness: on a non-directory path and on a directory with no schema
file, the two configuration errors are produced. -/
theorem new_config_errors_witness :
    (∃ m, SchemaParser.new exFileNotDir = .error (.invalidSchemaDir m)) ∧
    SchemaParser.new exEmptyDir = .error (.noSchemaFiles "app/empty") :=
  ⟨(new_config_errors exFileNotDir).1 (Or.inr rfl),
   (new_config_errors exEmptyDir).2 rfl rfl (by decide)⟩

/-- When every matched entry reads successfully and some matched entry fails
to parse, the walk loop aborts with a `ParseError`. -/
theorem newLoop_parse_failure :
    ∀ (entries : List SchemaDirEntry) (cs : List String)
      (qs : List SchemaQuery) (found : Bool),
      (∀ e ∈ entries, isSchemaFile e = true → isOkE e.readRes = true) →
      (∃ e ∈ entries, isSchemaFile e = true ∧ isErrE e.parseRes = true) →
      ∃ msg, newLoop entries cs qs found = .error (.parseError msg) := by
  intro entries
  induction entries with
  | nil =>
    intro cs qs found _ hbad
    obtain ⟨e, he, _⟩ := hbad
    cases he
  | cons e rest ih =>
    intro cs qs found hread hbad
    cases hse : isSchemaFile e with
    | false =>
      obtain ⟨b, hb, hbs, hberr⟩ := hbad
      have hbrest : b ∈ rest := by
        rcases List.mem_cons.mp hb with hbe | hbr
        · subst hbe; rw [hse] at hbs; cases hbs
        · exact hbr
      obtain ⟨m, hm⟩ := ih cs qs found
        (fun e2 he2 => hread e2 (List.mem_cons_of_mem e he2))
        ⟨b, hbrest, hbs, hberr⟩
      exact ⟨m, by simp [newLoop, hse, hm]⟩
    | true =>
      have hr := hread e (List.mem_cons_self e rest) hse
      cases hrr : e.readRes with
      | error m => rw [hrr] at hr; simp [isOkE] at hr
      | ok content =>
        cases hpr : e.parseRes with
        | error m =>
          exact ⟨m, by simp [newLoop, hse, hrr, hpr]⟩
        | ok doc =>
          obtain ⟨b, hb, hbs, hberr⟩ := hbad
          have hbrest : b ∈ rest := by
            rcases List.mem_cons.mp hb with hbe | hbr
            · subst hbe; rw [hpr] at hberr; simp [isErrE] at hberr
            · exact hbr
          obtain ⟨m, hm⟩ := ih (cs ++ extract_custom_scalars doc)
            (qs ++ extract_queries doc) true
            (fun e2 he2 => hread e2 (List.mem_cons_of_mem e he2))
            ⟨b, hbrest, hbs, hberr⟩
          exact ⟨m, by simp [newLoop, hse, hrr, hpr, hm]⟩

/-- C5: when the directory is valid, every matched schema file reads
successfully, and some matched schema file fails to parse, `SchemaParser::new`
returns a `ParseError`; consequently no schema model is produced and the
pipeline aborts before matching for every source tree. -/
theorem new_parse_failure_fail_fast (dir : SchemaDir)
    (hex : dir.dirExists = true) (hdir : dir.isDir = true)
    (hread : ∀ e ∈ dir.entries, isSchemaFile e = true → isOkE e.readRes = true)
    (hbad : ∃ e ∈ dir.entries, isSchemaFile e = true ∧ isErrE e.parseRes = true) :
    ∃ msg, SchemaParser.new dir = .error (.parseError msg) ∧
      ∀ src, ∃ err, runPipeline dir src = .error err := by
  obtain ⟨msg, hmsg⟩ := newLoop_parse_failure dir.entries [] [] false hread hbad
  have hnew : SchemaParser.new dir = .error (.parseError msg) := by
    unfold SchemaParser.new
    rw [hex, hdir, hmsg]
    rfl
  refine ⟨msg, hnew, ?_⟩
  intro src
  refine ⟨.schemaError (.parseError msg), ?_⟩
  unfold runPipeline
  rw [hnew]

/-- C5 witness: on the concrete directory whose only schema file fails to
parse, `SchemaParser::new` fails with a `ParseError` and the pipeline never
reaches matching. -/
theorem new_parse_failure_fail_fast_witness :
    ∃ msg, SchemaParser.new exBadParseDir = .error (.parseError msg) ∧
      ∀ src, ∃ err, runPipeline exBadParseDir src = .error err :=
  new_parse_failure_fail_fast exBadParseDir rfl rfl (by decide) (by decide)

/-! ## Theorems: resolver extractor -/

/-- A `.kt` entry that fails to read or to parse aborts the file loop. -/
theorem resolverLoop_fatal :
    ∀ (entries : List SourceEntry) (acc : List String),
      (∃ e ∈ entries, entryIsKt e = true ∧
        (isErrE e.readRes = true ∨ e.parseSome = false)) →
      ∃ pc, resolverLoop entries acc = .error pc := by
  intro entries
  induction entries with
  | nil =>
    rintro acc ⟨e, he, _⟩
    cases he
  | cons e rest ih =>
    rintro acc ⟨b, hb, hbk, hbbad⟩
    cases hke : entryIsKt e with
    | false =>
      have hbrest : b ∈ rest := by
        rcases List.mem_cons.mp hb with hbe | hbr
        · subst hbe; rw [hke] at hbk; cases hbk
        · exact hbr
      obtain ⟨pc, hpc⟩ := ih acc ⟨b, hbrest, hbk, hbbad⟩
      exact ⟨pc, by simp [resolverLoop, hke, hpc]⟩
    | true =>
      cases hrr : e.readRes with
      | error m => exact ⟨.readPanic m, by simp [resolverLoop, hke, hrr]⟩
      | ok content =>
        cases hps : e.parseSome with
        | false => exact ⟨.parsePanic, by simp [resolverLoop, hke, hrr, hps]⟩
        | true =>
          have hbrest : b ∈ rest := by
            rcases List.mem_cons.mp hb with hbe | hbr
            · subst hbe
              rcases hbbad with hbb | hbb
              · rw [hrr] at hbb; simp [isErrE] at hbb
              · rw [hps] at hbb; cases hbb
            · exact hbr
          obtain ⟨pc, hpc⟩ := ih (e.functions.foldl processFunction acc)
            ⟨b, hbrest, hbk, hbbad⟩
          exact ⟨pc, by simp [resolverLoop, hke, hrr, hps, hpc]⟩

/-- C7: a matched source file that fails to read, or fails to parse, makes
`get_resolver_names` abort (a panic, modelled as an error), so no resolver
list exists and the pipeline produces no mismatch list for any schema
directory. -/
theorem get_resolver_names_fatal (entries : List SourceEntry)
    (hbad : ∃ e ∈ entries, entryIsKt e = true ∧
      (isErrE e.readRes = true ∨ e.parseSome = false)) :
    (∃ pc, get_resolver_names entries = .error pc) ∧
    ∀ dir, ∃ err, runPipeline dir entries = .error err := by
  obtain ⟨pc, hpc⟩ := resolverLoop_fatal entries [] hbad
  refine ⟨⟨pc, hpc⟩, ?_⟩
  intro dir
  cases hnew : SchemaParser.new dir with
  | error e =>
    exact ⟨.schemaError e, by unfold runPipeline; rw [hnew]⟩
  | ok sp =>
    refine ⟨.sourcePanic pc, ?_⟩
    unfold runPipeline
    rw [hnew]
    have hrn : get_resolver_names entries = .error pc := hpc
    rw [hrn]

/-- C7 witness: a source tree whose one `.kt` file cannot be read aborts the
run. -/
theorem get_resolver_names_fatal_witness :
    (∃ pc, get_resolver_names exUnreadableEntries = .error pc) ∧
    ∀ dir, ∃ err, runPipeline dir exUnreadableEntries = .error err :=
  get_resolver_names_fatal exUnreadableEntries (by decide)

/-- The per-function step either leaves the accumulator unchanged or appends
one fresh name bound by a `Query` mapping. -/
theorem processFunction_cases (acc : List String) (f : FunctionDecl) :
    processFunction acc f = acc ∨
    ∃ n, processFunction acc f = acc ++ [n] ∧
      f.schemaMappingCapture = some ("Query", n) ∧ n ∉ acc := by
  obtain ⟨sm, mn⟩ := f
  cases sm with
  | none => exact Or.inl rfl
  | some tf =>
    obtain ⟨t, n⟩ := tf
    cases hq : t != "Query" with
    | true => exact Or.inl (by unfold processFunction; simp [hq])
    | false =>
      have ht : t = "Query" := by simpa using hq
      cases mn with
      | none => exact Or.inl (by unfold processFunction; simp [hq])
      | some s =>
        cases hc : acc.contains n with
        | true =>
          refine Or.inl ?_
          unfold processFunction
          simp [hq, hc]
          exact List.elem_iff.mp hc
        | false =>
          have hnm : n ∉ acc := by
            intro hmem
            have h2 : acc.contains n = true := List.elem_iff.mpr hmem
            rw [h2] at hc
            cases hc
          refine Or.inr ⟨n, ?_, by rw [ht], hnm⟩
          unfold processFunction
          simp [hq, hc]
          intro hmem
          have h2 : acc.contains n = true := List.elem_iff.mpr hmem
          rw [h2] at hc
          cases hc

/-- Names reachable by folding the per-function step come from the initial
accumulator or from a `Query`-bound function of the list. -/
theorem foldl_processFunction_mem (fs : List FunctionDecl) :
    ∀ (acc : List String) (n : String),
      n ∈ fs.foldl processFunction acc →
      n ∈ acc ∨ ∃ f ∈ fs, f.schemaMappingCapture = some ("Query", n) := by
  induction fs with
  | nil => intro acc n h; exact Or.inl h
  | cons f rest ih =>
    intro acc n h
    simp only [List.foldl_cons] at h
    rcases ih (processFunction acc f) n h with hm | ⟨g, hg, hgq⟩
    · rcases processFunction_cases acc f with hc | ⟨m, heq, hmq, _⟩
      · rw [hc] at hm; exact Or.inl hm
      · rw [heq] at hm
        rcases List.mem_append.mp hm with hm2 | hm2
        · exact Or.inl hm2
        · have : n = m := List.mem_singleton.mp hm2
          subst this
          exact Or.inr ⟨f, List.mem_cons_self f rest, hmq⟩
    · exact Or.inr ⟨g, List.mem_cons_of_mem f hg, hgq⟩

/-- Folding the per-function step preserves freedom from duplicates. -/
theorem foldl_processFunction_nodup (fs : List FunctionDecl) :
    ∀ acc : List String, acc.Nodup → (fs.foldl processFunction acc).Nodup := by
  induction fs with
  | nil => intro acc h; exact h
  | cons f rest ih =>
    intro acc h
    simp only [List.foldl_cons]
    apply ih
    rcases processFunction_cases acc f with hc | ⟨m, heq, _, hnm⟩
    · rw [hc]; exact h
    · rw [heq]
      simp [List.nodup_append, h, hnm]

/-- Invariant of the file loop: duplicate-freedom is preserved, and every
name in a successful result comes from the accumulator or from a
`Query`-bound function of a `.kt` entry. -/
theorem resolverLoop_nodup_and_query_only :
    ∀ (entries : List SourceEntry) (acc rs : List String),
      resolverLoop entries acc = .ok rs →
      (acc.Nodup → rs.Nodup) ∧
      ∀ n ∈ rs, n ∈ acc ∨ ∃ e ∈ entries, entryIsKt e = true ∧
        ∃ f ∈ e.functions, f.schemaMappingCapture = some ("Query", n) := by
  intro entries
  induction entries with
  | nil =>
    intro acc rs h
    injection h with h
    subst h
    exact ⟨fun hn => hn, fun n hn => Or.inl hn⟩
  | cons e rest ih =>
    intro acc rs h
    cases hke : entryIsKt e with
    | false =>
      simp only [resolverLoop, hke, Bool.not_false, if_pos] at h
      obtain ⟨h1, h2⟩ := ih acc rs h
      refine ⟨h1, fun n hn => ?_⟩
      rcases h2 n hn with hin | ⟨e2, he2, hk2, hf⟩
      · exact Or.inl hin
      · exact Or.inr ⟨e2, List.mem_cons_of_mem e he2, hk2, hf⟩
    | true =>
      simp only [resolverLoop, hke, Bool.not_true] at h
      cases hrr : e.readRes with
      | error m => rw [hrr] at h; cases h
      | ok content =>
        rw [hrr] at h
        cases hps : e.parseSome with
        | false => rw [hps] at h; cases h
        | true =>
          rw [hps] at h
          simp only [Bool.not_true] at h
          obtain ⟨h1, h2⟩ := ih (e.functions.foldl processFunction acc) rs h
          constructor
          · intro hacc
            exact h1 (foldl_processFunction_nodup e.functions acc hacc)
          · intro n hn
            rcases h2 n hn with hin | ⟨e2, he2, hk2, hf⟩
            · rcases foldl_processFunction_mem e.functions acc n hin with
                hin2 | ⟨f, hf, hfq⟩
              · exact Or.inl hin2
              · exact Or.inr ⟨e, List.mem_cons_self e rest, hke, f, hf, hfq⟩
            · exact Or.inr ⟨e2, List.mem_cons_of_mem e he2, hk2, hf⟩

/-- C4: a successful `get_resolver_names` returns each field name at most
once, and only field names bound by a `SchemaMapping` whose root type equals
`Query`; a function annotated with any other root type contributes nothing. -/
theorem get_resolver_names_dedup_query_only (entries : List SourceEntry)
    (rs : List String) (h : get_resolver_names entries = .ok rs) :
    rs.Nodup ∧ ∀ n ∈ rs, ∃ e ∈ entries, entryIsKt e = true ∧
      ∃ f ∈ e.functions, f.schemaMappingCapture = some ("Query", n) := by
  obtain ⟨h1, h2⟩ := resolverLoop_nodup_and_query_only entries [] rs h
  refine ⟨h1 List.nodup_nil, fun n hn => ?_⟩
  rcases h2 n hn with hin | hex
  · cases hin
  · exact hex

/-- C4 witness: on the concrete source tree with a duplicate `Query.employee`
binding and a `Mutation` binding, the result is duplicate-free and
`Query`-sourced. -/
theorem get_resolver_names_dedup_query_only_witness :
    (["employee", "searchEmployee"] : List String).Nodup ∧
    ∀ n ∈ (["employee", "searchEmployee"] : List String),
      ∃ e ∈ exSourceEntries, entryIsKt e = true ∧
        ∃ f ∈ e.functions, f.schemaMappingCapture = some ("Query", n) :=
  get_resolver_names_dedup_query_only exSourceEntries
    ["employee", "searchEmployee"] rfl

/-- C9 counterexample: two source trees identical except that in one the
method-name pattern fails to match the (generic) function text; the
`Query`-annotated field enters the binding set only when the pattern
matches, so membership does depend on the secondary pattern. -/
theorem method_name_gates_binding_cex :
    fnGenericNoName.schemaMappingCapture = fnNamed.schemaMappingCapture ∧
    get_resolver_names exGenericEntry = .ok [] ∧
    get_resolver_names exNamedEntry = .ok ["employee"] :=
  ⟨rfl, rfl, rfl⟩

/-- Replacing the value captured by the method-name pattern changes nothing
in the per-function step. -/
theorem processFunction_ignores_method_name_value (acc : List String)
    (f : FunctionDecl) :
    processFunction acc (normalizeMethodCapture f) = processFunction acc f := by
  obtain ⟨sm, mn⟩ := f
  cases sm with
  | none => cases mn <;> rfl
  | some tf => obtain ⟨t, n⟩ := tf; cases mn <;> rfl

/-- The file loop is unchanged when every captured method name is replaced
by the empty string. -/
theorem resolverLoop_normalize :
    ∀ (entries : List SourceEntry) (acc : List String),
      resolverLoop (entries.map normalizeEntry) acc
        = resolverLoop entries acc := by
  intro entries
  induction entries with
  | nil => intro acc; rfl
  | cons e rest ih =>
    intro acc
    have h1 : entryIsKt (normalizeEntry e) = entryIsKt e := rfl
    have h2 : (normalizeEntry e).readRes = e.readRes := rfl
    have h3 : (normalizeEntry e).parseSome = e.parseSome := rfl
    have h4 : ∀ acc2 : List String,
        (normalizeEntry e).functions.foldl processFunction acc2
          = e.functions.foldl processFunction acc2 := by
      intro acc2
      show (e.functions.map normalizeMethodCapture).foldl processFunction acc2
          = e.functions.foldl processFunction acc2
      rw [List.foldl_map]
      have hfun : (fun (a : List String) (f : FunctionDecl) =>
          processFunction a (normalizeMethodCapture f)) = processFunction := by
        funext a f
        exact processFunction_ignores_method_name_value a f
      rw [hfun]
    simp only [List.map_cons, resolverLoop, h1, h2, h3]
    cases hke : entryIsKt e with
    | false => simp [ih]
    | true =>
      simp only [Bool.not_true]
      cases e.readRes with
      | error m => rfl
      | ok content =>
        cases e.parseSome with
        | false => rfl
        | true =>
          simp only [Bool.not_true, h4]
          exact ih _

/-- C9 amended: the value recovered by the method-name pattern is
diagnostic-only — replacing every captured method name changes the binding
set of nothing — but whether the pattern matched at all does gate the
binding: a function whose method-name capture is absent contributes no
binding even when its `SchemaMapping` binds `Query`. -/
theorem method_name_value_diagnostic_only :
    (∀ entries : List SourceEntry,
      get_resolver_names (entries.map normalizeEntry)
        = get_resolver_names entries) ∧
    (∀ (acc : List String) (sm : Option (String × String)),
      processFunction acc
        { schemaMappingCapture := sm, methodNameCapture := none } = acc) := by
  constructor
  · intro entries
    exact resolverLoop_normalize entries []
  · intro acc sm
    cases sm with
    | none => rfl
    | some tf =>
      obtain ⟨t, n⟩ := tf
      cases hq : t != "Query" with
      | true => unfold processFunction; simp [hq]
      | false => unfold processFunction; simp [hq]

/-! ## Theorems: argument nullability -/

/-- For a type whose named parts are clean, the rendering contains a `!`
exactly when the type contains a non-null marker somewhere. -/
theorem bang_mem_renderType (t : GqlType) (h : cleanTypeName t = true) :
    ('!' ∈ renderType t) ↔ containsNonNull t = true := by
  induction t with
  | namedType n =>
    simp only [renderType, containsNonNull]
    constructor
    · intro hm
      have hc : n.toList.contains '!' = true := List.elem_iff.mpr hm
      simp only [cleanTypeName] at h
      rw [hc] at h
      cases h
    · intro hf
      cases hf
  | listType t ih =>
    simp only [cleanTypeName] at h
    simp only [renderType, containsNonNull]
    have hbl : ('!' : Char) ≠ '[' := by decide
    have hbr : ('!' : Char) ≠ ']' := by decide
    simp [List.mem_cons, List.mem_append, hbl, hbr, ih h]
  | nonNullType t ih =>
    simp only [cleanTypeName] at h
    simp [renderType, containsNonNull, List.mem_append]

/-- Boolean form of `bang_mem_renderType`, matching the `contains('!')` call
in `extract_queries`. -/
theorem renderType_contains_bang (t : GqlType) (h : cleanTypeName t = true) :
    (renderType t).contains '!' = containsNonNull t := by
  cases hcn : containsNonNull t with
  | true => exact List.elem_iff.mpr ((bang_mem_renderType t h).mpr hcn)
  | false =>
    cases hcc : (renderType t).contains '!' with
    | false => rfl
    | true =>
      have hm := (bang_mem_renderType t h).mp (List.elem_iff.mp hcc)
      rw [hm] at hcn
      cases hcn

/-- Removing every `!` from the rendering of a clean type renders the type
with its non-null markers structurally removed. -/
theorem renderType_filter_bang (t : GqlType) (h : cleanTypeName t = true) :
    (renderType t).filter (fun c => c != '!') = renderType (stripNonNull t) := by
  induction t with
  | namedType n =>
    simp only [renderType, stripNonNull]
    apply List.filter_eq_self.mpr
    intro c hcm
    simp only [cleanTypeName] at h
    have hnb : c ≠ '!' := by
      intro hceq
      subst hceq
      have hc : n.toList.contains '!' = true := List.elem_iff.mpr hcm
      rw [hc] at h
      cases h
    simpa using hnb
  | listType t ih =>
    simp only [cleanTypeName] at h
    have h1 : (('[' : Char) != '!') = true := by decide
    have h2 : ((']' : Char) != '!') = true := by decide
    simp only [renderType, stripNonNull, List.filter_cons, List.filter_append,
      h1, if_pos]
    rw [ih h]
    simp [h2]
  | nonNullType t ih =>
    simp only [cleanTypeName] at h
    have h3 : (('!' : Char) != '!') = false := by decide
    simp only [renderType, stripNonNull, List.filter_append]
    rw [ih h]
    simp [h3]

/-- On a clean type the code's argument construction agrees with the
spec-side one. -/
theorem mkArgument_eq_spec (name : String) (t : GqlType)
    (h : cleanTypeName t = true) :
    mkArgument name t = mkArgumentSpec name t := by
  simp only [mkArgument, mkArgumentSpec]
  rw [renderType_filter_bang t h, renderType_contains_bang t h]

/-- C3 counterexample: the argument type, a nullable list of non-null
strings, carries no trailing non-null marker, yet `extract_queries` marks it
non-nullable (`is_nullable = false`) because the rendering contains a `!`
on the element type, and its `value_type` keeps the list brackets. -/
theorem arg_nullability_trailing_cex :
    hasTrailingNonNull exListArgType = false ∧
    extract_queries exListArgDoc =
      [ { name := "searchEmployee"
          arguments :=
            [ { name := "names", value_type := "[String]"
                is_nullable := false } ] } ] :=
  ⟨rfl, rfl⟩

/-- C3 amended: for every document whose type names are clean (as in any
real GraphQL schema), the extracted arguments have `is_nullable = false` iff
the declared type carries a non-null marker anywhere (trailing or on a
nested element type) and `value_type` equal to the declared type's rendering
with all non-null markers removed — stated as agreement of `extract_queries`
with the spec-side extraction built on `mkArgumentSpec`. -/
theorem extract_queries_marker_anywhere (schema : Document)
    (h : wellFormedDoc schema = true) :
    extract_queries schema = extract_queriesSpec schema := by
  unfold extract_queries extract_queriesSpec
  apply List.flatMap_congr
  intro fields hfields
  apply List.map_congr_left
  intro field hfield
  have hclean : ∀ arg ∈ field.arguments, cleanTypeName arg.value_type = true := by
    obtain ⟨d, hd, hsel⟩ := List.mem_filterMap.mp hfields
    have hall := List.all_eq_true.mp h d hd
    cases d with
    | otherDefinition => cases hsel
    | typeDefinition td =>
      cases td with
      | scalar n => cases hsel
      | otherTypeDef => cases hsel
      | object n flds =>
        cases hq : n != QUERY_NAME with
        | true => simp [hq] at hsel
        | false =>
          simp [hq] at hsel
          subst hsel
          simp only at hall
          intro arg harg
          have hfall := List.all_eq_true.mp hall field hfield
          exact List.all_eq_true.mp hfall arg harg
  have hargs : field.arguments.map (fun arg => mkArgument arg.name arg.value_type)
      = field.arguments.map (fun arg => mkArgumentSpec arg.name arg.value_type) := by
    apply List.map_congr_left
    intro arg harg
    exact mkArgument_eq_spec arg.name arg.value_type (hclean arg harg)
  rw [hargs]

/-- C3 amended witness: on the concrete document with the bracketed argument
type, the code's extraction and the spec-side extraction agree. -/
theorem extract_queries_marker_anywhere_witness :
    extract_queries exListArgDoc = extract_queriesSpec exListArgDoc :=
  extract_queries_marker_anywhere exListArgDoc (by decide)

/-! ## Theorems: Kotlin metadata extractor -/

/-- C8: evaluating `KotlinParser::new` on a file that declares class `A`
twice.  The duplicate registration is skipped (the map has a single entry),
but because the `continue` on a duplicate leaves `current_class_name`
pointing at the first registration, the duplicate declaration's constructor
parameter `y: String` is appended to the first-registered class — its field
list ends as `[x, y]` instead of `[x]`. -/
theorem duplicate_class_params_merged :
    KotlinParser.new [dupClassCaptures] =
      .ok { files := [{ package := "com.example" }]
            class_map := [("com.example.A",
              { fields := [ { field_type := "Int", field_name := "x" }
                          , { field_type := "String", field_name := "y" } ]
                name := "com.example.A" })] } := by
  decide

/-- C10 counterexample: the captured class-parameter text of a Kotlin
parameter written without a space after the colon splits on `": "` into one
part, and `KotlinParser::new` hits the out-of-bounds index on part 1 and
panics. -/
theorem field_split_out_of_bounds_cex :
    (rustSplit ": " "val x:Int").length = 1 ∧
    KotlinParser.new [noSpaceParamCaptures] = .error .fieldIndexPanic :=
  ⟨rfl, rfl⟩

/-- A capture whose text splits into at least two parts is processed without
the index panic. -/
theorem processCapture_ok (st : KtFile × Option String × ClassMap)
    (c : KtCapture) (h : fieldCaptureOk c = true) :
    ∃ st2, processCapture st c = .ok st2 := by
  obtain ⟨file, cur, cm⟩ := st
  cases c with
  | packageName t => exact ⟨_, rfl⟩
  | otherCapture t => exact ⟨_, rfl⟩
  | className t =>
    simp only [processCapture]
    cases hc : mapContainsKey cm (file.package ++ "." ++ t) with
    | true => exact ⟨_, rfl⟩
    | false => exact ⟨_, rfl⟩
  | fieldType t =>
    simp only [fieldCaptureOk, decide_eq_true_eq] at h
    have hlt : 1 < (rustSplit ": " t).length := h
    simp only [processCapture]
    rw [List.getElem?_eq_getElem hlt]
    cases cur with
    | none => exact ⟨_, rfl⟩
    | some class_name => exact ⟨_, rfl⟩

/-- A capture stream of in-bounds captures is processed without panic. -/
theorem runCaptures_ok (captures : List KtCapture) :
    ∀ st, (∀ c ∈ captures, fieldCaptureOk c = true) →
      ∃ st2, runCaptures st captures = .ok st2 := by
  induction captures with
  | nil => intro st _; exact ⟨st, rfl⟩
  | cons c rest ih =>
    intro st h
    obtain ⟨st2, hst2⟩ := processCapture_ok st c (h c (List.mem_cons_self c rest))
    obtain ⟨st3, hst3⟩ := ih st2 (fun c2 hc2 => h c2 (List.mem_cons_of_mem c hc2))
    exact ⟨st3, by simp [runCaptures, hst2, hst3]⟩

/-- The file loop succeeds on any list of in-bounds capture streams. -/
theorem kotlinNewLoop_ok :
    ∀ (srcFiles : List (List KtCapture)) (files : List KtFile) (cm : ClassMap),
      (∀ f ∈ srcFiles, ∀ c ∈ f, fieldCaptureOk c = true) →
      ∃ kp, kotlinNewLoop srcFiles files cm = .ok kp := by
  intro srcFiles
  induction srcFiles with
  | nil => intro files cm _; exact ⟨_, rfl⟩
  | cons captures rest ih =>
    intro files cm h
    obtain ⟨st2, hst2⟩ := runCaptures_ok captures ({ package := "" }, none, cm)
      (h captures (List.mem_cons_self captures rest))
    obtain ⟨kp, hkp⟩ := ih (files ++ [st2.1]) st2.2.2
      (fun f hf c hc => h f (List.mem_cons_of_mem captures hf) c hc)
    exact ⟨kp, by simp [kotlinNewLoop, hst2, hkp]⟩

/-- C10 amended: provided every captured class-parameter text contains the
separator `": "` (splits into at least two parts), the accesses to parts 0
and 1 are in bounds and `KotlinParser::new` completes without the index
panic; a parameter written without a space after the colon violates the
premise and panics, as the counterexample shows. -/
theorem field_extraction_in_bounds (srcFiles : List (List KtCapture))
    (h : ∀ f ∈ srcFiles, ∀ c ∈ f, fieldCaptureOk c = true) :
    ∃ kp, KotlinParser.new srcFiles = .ok kp :=
  kotlinNewLoop_ok srcFiles [] [] h

/-- C10 amended witness: a well-spaced file is processed without panic. -/
theorem field_extraction_in_bounds_witness :
    ∃ kp, KotlinParser.new [spacedParamCaptures] = .ok kp :=
  field_extraction_in_bounds [spacedParamCaptures] (by decide)

end GqlChecker
